import Mathlib

/-!
Shallow embedding of the BlenderKit batch add-on (src/__init__.py and
src/bmodule_finder.py) together with proofs about its scheduling,
target selection, upload-set computation and module-locating behaviour.

Python strings are `String`, Python `None`-able values are `Option`,
float properties that only flow through arithmetic (the task delay) are
`ℚ`, filesystem and host-add-on effects are opaque functions supplied by
a `Host` record, and external calls made by the add-on are recorded in a
trace of `HostCall` events.
-/

namespace BKBatch

/-- `str(i).zfill(w)`: left-pad a string with ASCII zeros to width `w`. -/
def zfill (w : Nat) (s : String) : String :=
  String.mk (List.replicate (w - s.length) (Char.ofNat 48)) ++ s

/-- `os.path.join(a, b)` for a relative second component. -/
def pathJoin (a b : String) : String :=
  a ++ "/" ++ b

/-- Python `s.startswith(pre)`, computed on the character lists. -/
def strStartsWith (s pre : String) : Bool :=
  pre.data.isPrefixOf s.data

/-- Python `s.lower()`, computed on the character lists. -/
def strToLower (s : String) : String :=
  String.mk (s.data.map Char.toLower)

/-! ### `src/bmodule_finder.py` -/

/-- A Python module object as seen through `dir`/`getattr`/`hasattr`:
each attribute name is paired with the attribute names of the object it
refers to (what `dir` of that sub-object would report). -/
structure PyModule where
  attrs : List (String × List String)
  deriving Repr, DecidableEq

/-- The introspection environment `find_module` runs in: whether the
`bl_ext` package can be imported, the entries of `dir(bl_ext)` with the
module objects behind them, and for each Blender addons path the set of
directory entries that exist under it. -/
structure FinderEnv where
  hasBlExt : Bool
  namespaces : List (String × PyModule)
  addonPaths : List (List String)
  deriving Repr, DecidableEq

/-- The scan of `dir(bl_ext)` in `find_module`: skip dunder entries,
return `bl_ext.<ns>.<module_name>` when the namespace itself has the
attribute, else `bl_ext.<ns>.<attr>.<module_name>` for the first
non-dunder attribute whose object has it, else move on. -/
def findInBlExt (module_name : String) : List (String × PyModule) → Option String
  | [] => none
  | ns :: rest =>
    if strStartsWith ns.1 "__" then findInBlExt module_name rest
    else if ns.2.attrs.any (fun a => a.1 == module_name) then
      some ("bl_ext." ++ ns.1 ++ "." ++ module_name)
    else
      match ns.2.attrs.find? (fun a => !strStartsWith a.1 "__" && a.2.contains module_name) with
      | some a => some ("bl_ext." ++ ns.1 ++ "." ++ a.1 ++ "." ++ module_name)
      | none => findInBlExt module_name rest

/-- `bmodule_finder.find_module`: search `bl_ext` namespaces first, then
fall back to the filesystem addons paths, else `None`. -/
def find_module (env : FinderEnv) (module_name : String) : Option String :=
  match (if env.hasBlExt then findInBlExt module_name env.namespaces else none) with
  | some s => some s
  | none =>
    if env.addonPaths.any (fun entries => entries.contains module_name) then
      some module_name
    else
      none

/-- A non-dunder `bl_ext` namespace (or one of its non-dunder one-level
attributes) has an attribute named `module_name`. -/
def nsHit (module_name : String) (ns : String × PyModule) : Bool :=
  !strStartsWith ns.1 "__" &&
    (ns.2.attrs.any (fun a => a.1 == module_name) ||
     ns.2.attrs.any (fun a => !strStartsWith a.1 "__" && a.2.contains module_name))

/-- The dotted-path shapes `find_module` may build from the `bl_ext` scan. -/
def blExtShape (module_name s : String) (l : List (String × PyModule)) : Prop :=
  ∃ ns, (∃ m, (ns, m) ∈ l) ∧
    (s = "bl_ext." ++ ns ++ "." ++ module_name ∨
     ∃ sub, s = "bl_ext." ++ ns ++ "." ++ sub ++ "." ++ module_name)

/-! ### Data model for `src/__init__.py` -/

/-- The `.blenderkit` property group carried by Blender objects, with the
fields the add-on reads or writes. -/
structure BlenderkitData where
  name : String := ""
  asset_base_id : String := ""
  id : String := ""
  description : String := ""
  tags : String := ""
  category : String := ""
  subcategory : String := "NONE"
  subcategory1 : String := "NONE"
  is_private : String := "PRIVATE"
  license : String := ""
  sexualized_content : Bool := false
  nudity_content : Bool := false
  violence_content : Bool := false
  sensitive_content_comment : String := ""
  thumbnail : String := ""
  face_count : Nat := 0
  vertex_count : Nat := 0
  material_count : Nat := 0
  image_count : Nat := 0
  image_memory : Nat := 0
  modifiers : String := ""
  dimension_x : ℚ := 0
  dimension_y : ℚ := 0
  dimension_z : ℚ := 0
  thumbnail_angle : String := ""
  thumbnail_snap_to : String := ""
  thumbnail_background_lightness : ℚ := 0
  thumbnail_resolution : Nat := 0
  thumbnail_samples : Nat := 0
  thumbnail_denoising : Bool := false
  uploading : Bool := false
  upload_state : String := ""
  is_generating_thumbnail : Bool := false
  thumbnail_generating_state : String := ""
  deriving Repr, DecidableEq

/-- A Blender object as the add-on sees it: a name, an optional parent,
whether `hasattr(obj, "blenderkit")` holds together with that data, and
an optional `instance_collection`. -/
structure BObject where
  name : String
  parent : Option String := none
  has_blenderkit : Bool := true
  blenderkit : BlenderkitData := {}
  instance_collection : Option String := none
  deriving Repr, DecidableEq

/-- The two values of the `target_mode` enum property. -/
inductive TargetMode where
  | SELECTED
  | COLLECTION
  deriving Repr, DecidableEq

/-- `BlenderKitBatchProperties`: the scene-level batch settings.  The
picked collection is represented by its object list (`None` when no
collection is set). -/
structure BatchProps where
  target_mode : TargetMode := TargetMode.SELECTED
  target_collection : Option (List BObject) := none
  task_delay : ℚ := 2
  reupload_metadata : Bool := true
  reupload_thumbnail : Bool := true
  reupload_main_file : Bool := true
  upload_plan : String := "FULL"
  deriving Repr, DecidableEq

/-- The three upload components of `upload_set`. -/
inductive UploadComponent where
  | METADATA
  | THUMBNAIL
  | MAINFILE
  deriving Repr, DecidableEq

/-- `upload_params` dictionary assembled by `_get_model_upload_data`. -/
structure UploadParams where
  faceCount : Nat
  vertexCount : Nat
  materialCount : Nat
  objectCount : Nat
  imageCount : Nat
  imageMemory : Nat
  modifiers : List String
  dimensions : List ℚ
  deriving Repr, DecidableEq

/-- `upload_data` dictionary assembled by `_get_model_upload_data` (the
`assetId` key is added later by `_trigger_upload`). -/
structure UploadData where
  assetType : String
  asset_base_id : String
  id : String
  displayName : String
  description : String
  tags : List String
  category : String
  isPrivate : Bool
  freeFull : String
  license : String
  sexualizedContent : Bool
  nudityContent : Bool
  violenceContent : Bool
  sensitiveContentComment : String
  sourceAppVersion : String
  upload_params : UploadParams
  assetId : Option String := none
  deriving Repr, DecidableEq

/-- `export_data` dictionary assembled by `_get_model_upload_data` (the
`source_filepath`/`temp_dir` keys are added later by `_trigger_upload`). -/
structure ExportData where
  asset_name : String
  thumbnail_path : String
  models : List String
  eval_path_computing : String
  eval_path_state : String
  eval_path : String
  source_filepath : Option String := none
  temp_dir : Option String := none
  deriving Repr, DecidableEq

/-- An action handed to the task queue: the add-on enqueues only these
two kinds of per-model work. -/
inductive TaskAction where
  | renderThumbnail (modelName : String)
  | upload (modelName : String) (isReupload : Bool)
  deriving Repr, DecidableEq

/-- A delayed task: the callback-with-arguments pair and the `wait`
passed to `bk_tasks_queue.add_task`. -/
structure Task where
  action : TaskAction
  wait : ℚ
  deriving Repr, DecidableEq

/-- External calls the add-on makes into the host add-on / host
application, recorded as a trace. -/
inductive HostCall where
  | getSelectedModels
  | addTask (t : Task)
  | getHierarchy (modelName : String)
  | saveAsMainfile (filepath : String)
  | startModelThumbnailer (models : List String) (asset_name : String)
      (filepath : String) (thumbnail_path : String)
  | assetUpload (upload_data : UploadData) (export_data : ExportData)
      (upload_set : List UploadComponent)
  deriving Repr, DecidableEq

/-- Result of an operator `execute` method. -/
inductive OpResult where
  | FINISHED
  | CANCELLED
  deriving Repr, DecidableEq

/-- The host add-on's functions and host-application state the add-on
calls into, modelled as opaque pure functions.  Fallible calls return
`Except` with the exception message. -/
structure Host where
  get_selected_models : List BObject := []
  get_hierarchy : String → Except String (List String) := fun _ => Except.ok []
  string2list : String → List String := fun _ => []
  blender_version : String := ""
  slugify : String → String := id
  abspath : String → String := id
  fs_exists : String → Bool := fun _ => false
  dirname : String → String := id
  splitext_ext : String → String := fun _ => ".blend"
  tempdir : String := "/tmp/t"
  save : String → Except String Unit := fun _ => Except.ok ()

/-! ### `_get_model_upload_data` -/

/-- A single-quote character, used in the `eval_path` strings. -/
def sq : String := (Char.ofNat 39).toString

/-- `_get_model_upload_data(model_object, context)`: replicates parts of
`blenderkit.upload.get_upload_data`; returns `none` when the object
lacks `.blenderkit` data or `bk_utils.get_hierarchy` raises, together
with the trace of host calls made. -/
def get_model_upload_data (host : Host) (batch_props : BatchProps) (model : BObject) :
    Option (ExportData × UploadData) × List HostCall :=
  if model.has_blenderkit = false then (none, [])
  else
    let props := model.blenderkit
    let asset_type := "MODEL"
    let category0 :=
      if props.category == "" || props.category == "NONE" then strToLower asset_type
      else props.category
    let category1 :=
      if !(props.subcategory == "NONE" || props.subcategory == "EMPTY" ||
            props.subcategory == "OTHER") then props.subcategory
      else category0
    let category2 :=
      if !(props.subcategory1 == "NONE" || props.subcategory1 == "EMPTY" ||
            props.subcategory1 == "OTHER") then props.subcategory1
      else category1
    let thumbnail_path := if props.thumbnail == "" then "" else host.abspath props.thumbnail
    match host.get_hierarchy model.name with
    | Except.error _ => (none, [HostCall.getHierarchy model.name])
    | Except.ok obnames =>
      let upload_params : UploadParams :=
        { faceCount := props.face_count
          vertexCount := props.vertex_count
          materialCount := props.material_count
          objectCount := obnames.length
          imageCount := props.image_count
          imageMemory := props.image_memory
          modifiers := host.string2list props.modifiers
          dimensions := [props.dimension_x, props.dimension_y, props.dimension_z] }
      let upload_data : UploadData :=
        { assetType := strToLower asset_type
          asset_base_id := props.asset_base_id
          id := props.id
          displayName := props.name
          description := props.description
          tags := host.string2list props.tags
          category := category2
          isPrivate := props.is_private == "PRIVATE"
          freeFull := batch_props.upload_plan
          license := if props.is_private == "PUBLIC" then props.license else "PRIVATE"
          sexualizedContent := props.sexualized_content
          nudityContent := props.nudity_content
          violenceContent := props.violence_content
          sensitiveContentComment := props.sensitive_content_comment
          sourceAppVersion := host.blender_version
          upload_params := upload_params }
      let export_data : ExportData :=
        { asset_name := model.name
          thumbnail_path := thumbnail_path
          models := obnames
          eval_path_computing :=
            "bpy.data.objects[" ++ sq ++ model.name ++ sq ++ "].blenderkit.uploading"
          eval_path_state :=
            "bpy.data.objects[" ++ sq ++ model.name ++ sq ++ "].blenderkit.upload_state"
          eval_path := "bpy.data.objects[" ++ sq ++ model.name ++ sq ++ "]" }
      (some (export_data, upload_data), [HostCall.getHierarchy model.name])

/-! ### `_trigger_thumbnail_render` -/

/-- The name component of the `n`-th candidate thumbnail file tried by
`_trigger_thumbnail_render`: `<slug>` first, then `<slug>_0000`,
`<slug>_0001`, ... -/
def thumbCandName (an_slug : String) : Nat → String
  | 0 => an_slug
  | n + 1 => an_slug ++ "_" ++ zfill 4 (Nat.repr n)

/-- Absolute path of the `n`-th candidate thumbnail file. -/
def thumbCandAbs (thumb_dir an_slug : String) : Nat → String
  | 0 => pathJoin thumb_dir an_slug ++ ".jpg"
  | n + 1 => pathJoin thumb_dir (thumbCandName an_slug (n + 1) ++ ".jpg")

/-- Blender-relative (`//`-prefixed) path of the `n`-th candidate
thumbnail file. -/
def thumbCandRel (an_slug : String) : Nat → String
  | 0 => "//" ++ an_slug ++ ".jpg"
  | n + 1 => "//" ++ (thumbCandName an_slug (n + 1) ++ ".jpg")

/-- The `while os.path.exists(thumb_path)` loop of
`_trigger_thumbnail_render`, with explicit fuel (`none` models the loop
not terminating within the fuel). -/
def findUniqueThumb (ex : String → Bool) (thumb_dir an_slug : String) :
    Nat → Nat → String → String → Option (String × String)
  | 0, _, _, _ => none
  | fuel + 1, i, thumb_path, rel_thumb_path =>
    if ex thumb_path then
      let thumb_name := an_slug ++ "_" ++ zfill 4 (Nat.repr i)
      findUniqueThumb ex thumb_dir an_slug fuel (i + 1)
        (pathJoin thumb_dir (thumb_name ++ ".jpg")) ("//" ++ (thumb_name ++ ".jpg"))
    else some (thumb_path, rel_thumb_path)

/-- `_trigger_thumbnail_render(model_name)`: returns the final
`.blenderkit` data of the model (`none` on the early-return paths or
when the path-selection loop exhausts its fuel) and the trace of host
calls.  Exceptions raised by the save or hierarchy calls land in the
`except` branch that records the error state. -/
def trigger_thumbnail_render (available : Bool) (filepath : String) (host : Host)
    (objects : List BObject) (model_name : String) (fuel : Nat) :
    Option BlenderkitData × List HostCall :=
  if available = false then (none, [])
  else
    match objects.find? (fun o => o.name == model_name) with
    | none => (none, [])
    | some model =>
      if filepath == "" then (none, [])
      else
        let bkit0 := { model.blenderkit with
          is_generating_thumbnail := true
          thumbnail_generating_state := "starting blender instance (batch)" }
        let tempdir := host.tempdir
        let temp_blend_filepath :=
          pathJoin tempdir ("thumb_" ++ host.slugify model.name ++ ".blend")
        let thumb_dir := host.dirname filepath
        let an_slug := host.slugify model.name
        let thumb_path_base := pathJoin thumb_dir an_slug
        let rel_thumb_path_base := "//" ++ an_slug
        match findUniqueThumb host.fs_exists thumb_dir an_slug fuel 0
            (thumb_path_base ++ ".jpg") (rel_thumb_path_base ++ ".jpg") with
        | none => (none, [])
        | some (thumb_path, rel_thumb_path) =>
          let bkit1 := { bkit0 with
            thumbnail := rel_thumb_path
            thumbnail_generating_state := "Saving temp .blend file (batch)" }
          match host.save temp_blend_filepath with
          | Except.error e =>
            (some { bkit1 with
                is_generating_thumbnail := false
                thumbnail_generating_state := "Error: " ++ e },
             [HostCall.saveAsMainfile temp_blend_filepath])
          | Except.ok _ =>
            match host.get_hierarchy model.name with
            | Except.error e =>
              (some { bkit1 with
                  is_generating_thumbnail := false
                  thumbnail_generating_state := "Error: " ++ e },
               [HostCall.saveAsMainfile temp_blend_filepath,
                HostCall.getHierarchy model.name])
            | Except.ok obnames =>
              (some bkit1,
               [HostCall.saveAsMainfile temp_blend_filepath,
                HostCall.getHierarchy model.name,
                HostCall.startModelThumbnailer obnames model.name temp_blend_filepath
                  thumb_path])

/-! ### `_trigger_upload` -/

/-- The `upload_set` computed by `_trigger_upload`: all three components
for a fresh upload, the enabled re-upload toggles otherwise. -/
def uploadSet (is_reupload : Bool) (batch_props : BatchProps) : List UploadComponent :=
  if !is_reupload then
    [UploadComponent.METADATA, UploadComponent.THUMBNAIL, UploadComponent.MAINFILE]
  else
    (if batch_props.reupload_metadata then [UploadComponent.METADATA] else []) ++
    (if batch_props.reupload_thumbnail then [UploadComponent.THUMBNAIL] else []) ++
    (if batch_props.reupload_main_file then [UploadComponent.MAINFILE] else [])

/-- `_trigger_upload(model_name, is_reupload)`: returns the final
`.blenderkit` data of the model (`none` on the early-return paths where
no state is written) and the trace of host calls. -/
def trigger_upload (available : Bool) (filepath : String) (host : Host)
    (batch_props : BatchProps) (objects : List BObject)
    (model_name : String) (is_reupload : Bool) :
    Option BlenderkitData × List HostCall :=
  if available = false then (none, [])
  else
    match objects.find? (fun o => o.name == model_name) with
    | none => (none, [])
    | some model =>
      if model.has_blenderkit = false then (none, [])
      else
        let props := { model.blenderkit with
          uploading := true
          upload_state := "0% - Preparing data (batch)" }
        let upload_set := uploadSet is_reupload batch_props
        if upload_set.isEmpty then
          (some { props with
              upload_state := "Skipped: No re-upload options selected."
              uploading := false }, [])
        else if upload_set.contains UploadComponent.THUMBNAIL &&
            (props.thumbnail == "" || host.abspath props.thumbnail == "" ||
             !host.fs_exists (host.abspath props.thumbnail)) then
          (some { props with
              upload_state := "Error: Thumbnail selected for upload but not found or path invalid."
              uploading := false }, [])
        else
          match get_model_upload_data host batch_props model with
          | (none, tr) =>
            (some { props with
                upload_state := "Error: Failed to gather upload data."
                uploading := false }, tr)
          | (some (export_data, upload_data), tr) =>
            let upload_data := { upload_data with
              assetId := if is_reupload then some props.asset_base_id else none }
            if upload_set.contains UploadComponent.MAINFILE then
              if filepath == "" then
                (some { props with
                    upload_state := "Error: Please save the main blend file first."
                    uploading := false }, tr)
              else
                let temp_dir := host.tempdir
                let ext0 := host.splitext_ext filepath
                let ext := if ext0 == "" then ".blend" else ext0
                let source_filepath :=
                  pathJoin temp_dir ("export_" ++ host.slugify model.name ++ ext)
                match host.save source_filepath with
                | Except.error e =>
                  (some { props with
                      upload_state := "Error saving temp file: " ++ e
                      uploading := false },
                   tr ++ [HostCall.saveAsMainfile source_filepath])
                | Except.ok _ =>
                  let export_data := { export_data with
                    source_filepath := some source_filepath
                    temp_dir := some temp_dir }
                  (some { props with
                      upload_state := "1% - Sending to background uploader (batch)" },
                   tr ++ [HostCall.saveAsMainfile source_filepath,
                          HostCall.assetUpload upload_data export_data upload_set])
            else
              (some { props with
                  upload_state := "1% - Sending to background uploader (batch)" },
               tr ++ [HostCall.assetUpload upload_data export_data upload_set])

/-! ### Operator `execute` methods -/

/-- The filter applied to the objects of the target collection: keep
top-level objects that look like BlenderKit assets. -/
def modelsFromCollection (objs : List BObject) : List BObject :=
  objs.filter (fun obj =>
    obj.parent.isNone && obj.has_blenderkit &&
      (obj.blenderkit.name != "" || obj.blenderkit.asset_base_id != "" ||
       obj.instance_collection.isSome))

/-- The `models_to_process` selection shared verbatim by both operators:
`none` means the operator reports a warning/error and cancels. -/
def modelsToProcess (props : BatchProps) (host : Host) :
    Option (List BObject) × List HostCall :=
  match props.target_mode with
  | TargetMode.SELECTED =>
    let ms := host.get_selected_models
    (if ms.isEmpty then none else some ms, [HostCall.getSelectedModels])
  | TargetMode.COLLECTION =>
    match props.target_collection with
    | none => (none, [])
    | some objs =>
      let ms := modelsFromCollection objs
      (if ms.isEmpty then none else some ms, [])

/-- The `for index, model in enumerate(models_to_process)` scheduling
loop: one task per model, with `wait = index * task_delay`. -/
def scheduleFrom (mk : BObject → TaskAction) (delay : ℚ) : Nat → List BObject → List Task
  | _, [] => []
  | i, m :: rest => ⟨mk m, (i : ℚ) * delay⟩ :: scheduleFrom mk delay (i + 1) rest

/-- `BK_BATCH_OT_render_thumbnails.execute`. -/
def render_thumbnails_execute (available : Bool) (filepath : String)
    (props : BatchProps) (host : Host) : OpResult × List HostCall :=
  if available = false then (OpResult.CANCELLED, [])
  else if filepath == "" then (OpResult.CANCELLED, [])
  else
    match modelsToProcess props host with
    | (none, tr) => (OpResult.CANCELLED, tr)
    | (some ms, tr) =>
      (OpResult.FINISHED,
       tr ++ (scheduleFrom (fun m => TaskAction.renderThumbnail m.name)
                props.task_delay 0 ms).map HostCall.addTask)

/-- `BK_BATCH_OT_upload_models.execute`.  `api_key` is the key read from
the host add-on's preferences (`none` when the preferences object is
missing). -/
def upload_models_execute (available : Bool) (api_key : Option String)
    (props : BatchProps) (host : Host) : OpResult × List HostCall :=
  if available = false then (OpResult.CANCELLED, [])
  else if api_key.getD "" == "" then (OpResult.CANCELLED, [])
  else
    match modelsToProcess props host with
    | (none, tr) => (OpResult.CANCELLED, tr)
    | (some ms, tr) =>
      (OpResult.FINISHED,
       tr ++ (scheduleFrom
                (fun m => TaskAction.upload m.name (m.blenderkit.asset_base_id != ""))
                props.task_delay 0 ms).map HostCall.addTask)

/-- The tasks enqueued on the task queue during a trace. -/
def tasksOf (tr : List HostCall) : List Task :=
  tr.filterMap (fun c =>
    match c with
    | HostCall.addTask t => some t
    | _ => none)

/-- The model name an enqueued task operates on. -/
def taskModelName : TaskAction → String
  | TaskAction.renderThumbnail n => n
  | TaskAction.upload n _ => n

/-! ### Sample values for concrete witnesses -/

/-- A fresh model (no `asset_base_id`). -/
def sampleModelA : BObject := { name := "A" }

/-- A previously uploaded model (non-empty `asset_base_id`). -/
def sampleModelB : BObject := { name := "B", blenderkit := { asset_base_id := "id1" } }

/-- A host whose `get_selected_models` returns the two sample models. -/
def sampleHost : Host := { get_selected_models := [sampleModelA, sampleModelB] }

/-- Default batch settings (`SELECTED` mode, delay 2). -/
def sampleProps : BatchProps := {}

/-- A `bl_ext` environment with one extension namespace holding a
`blenderkit` module. -/
def finderEnvSample : FinderEnv :=
  { hasBlExt := true
    namespaces := [("user_default", { attrs := [("blenderkit", [])] })]
    addonPaths := [] }

/-- Batch settings with all three re-upload toggles disabled. -/
def sampleNoReupProps : BatchProps :=
  { reupload_metadata := false
    reupload_thumbnail := false
    reupload_main_file := false }

/-! ### Helper lemmas -/

theorem tasksOf_nil : tasksOf [] = [] := rfl

theorem tasksOf_append (l1 l2 : List HostCall) :
    tasksOf (l1 ++ l2) = tasksOf l1 ++ tasksOf l2 :=
  List.filterMap_append l1 l2 _

theorem tasksOf_map_addTask : ∀ l : List Task, tasksOf (l.map HostCall.addTask) = l
  | [] => rfl
  | t :: rest => by
    simpa [tasksOf, List.filterMap_cons] using tasksOf_map_addTask rest

theorem scheduleFrom_length (mk : BObject → TaskAction) (d : ℚ) :
    ∀ (i : Nat) (ms : List BObject), (scheduleFrom mk d i ms).length = ms.length
  | _, [] => rfl
  | i, _ :: rest => by
    simpa [scheduleFrom] using scheduleFrom_length mk d (i + 1) rest

theorem scheduleFrom_get? (mk : BObject → TaskAction) (d : ℚ) :
    ∀ (i : Nat) (ms : List BObject) (j : Nat),
      (scheduleFrom mk d i ms).get? j =
        (ms.get? j).map (fun m => ⟨mk m, ((i + j : Nat) : ℚ) * d⟩)
  | _, [], _ => rfl
  | i, m :: rest, 0 => by simp [scheduleFrom]
  | i, m :: rest, j + 1 => by
    have ih := scheduleFrom_get? mk d (i + 1) rest j
    simp only [scheduleFrom, List.get?_cons_succ, ih]
    have : i + 1 + j = i + (j + 1) := by omega
    rw [this]

theorem modelsToProcess_some_ne_nil (p : BatchProps) (h : Host)
    (ms : List BObject) (tr0 : List HostCall)
    (hEq : modelsToProcess p h = (some ms, tr0)) : ms ≠ [] := by
  unfold modelsToProcess at hEq
  split at hEq
  · by_cases hne : h.get_selected_models.isEmpty <;> simp [hne] at hEq
    rcases hEq with ⟨rfl, -⟩
    exact fun hnil => hne (by simp [hnil])
  · split at hEq
    · simp at hEq
    · rename_i objs heq2
      by_cases hne : (modelsFromCollection objs).isEmpty <;> simp only [hne] at hEq <;>
        simp at hEq
      rcases hEq with ⟨rfl, -⟩
      exact fun hnil => hne (by simp [hnil])

theorem modelsToProcess_trace_no_tasks (p : BatchProps) (h : Host)
    (r : Option (List BObject)) (tr0 : List HostCall)
    (hEq : modelsToProcess p h = (r, tr0)) : tasksOf tr0 = [] := by
  unfold modelsToProcess at hEq
  split at hEq
  · rcases hEq with ⟨-, rfl⟩; rfl
  · split at hEq
    · rcases hEq with ⟨-, rfl⟩; rfl
    · rcases hEq with ⟨-, rfl⟩; rfl

theorem render_finished_inv (a : Bool) (f : String) (p : BatchProps) (h : Host)
    (tr : List HostCall)
    (hEq : render_thumbnails_execute a f p h = (OpResult.FINISHED, tr)) :
    ∃ ms tr0, modelsToProcess p h = (some ms, tr0) ∧
      tr = tr0 ++ (scheduleFrom (fun m => TaskAction.renderThumbnail m.name)
        p.task_delay 0 ms).map HostCall.addTask := by
  unfold render_thumbnails_execute at hEq
  split at hEq
  · simp at hEq
  · split at hEq
    · simp at hEq
    · split at hEq
      · simp at hEq
      · rename_i ms tr0 heq
        rcases hEq with ⟨-, rfl⟩
        exact ⟨ms, tr0, heq, rfl⟩

theorem upload_finished_inv (a : Bool) (k : Option String) (p : BatchProps) (h : Host)
    (tr : List HostCall)
    (hEq : upload_models_execute a k p h = (OpResult.FINISHED, tr)) :
    ∃ ms tr0, modelsToProcess p h = (some ms, tr0) ∧
      tr = tr0 ++ (scheduleFrom
        (fun m => TaskAction.upload m.name (m.blenderkit.asset_base_id != ""))
        p.task_delay 0 ms).map HostCall.addTask := by
  unfold upload_models_execute at hEq
  split at hEq
  · simp at hEq
  · split at hEq
    · simp at hEq
    · split at hEq
      · simp at hEq
      · rename_i ms tr0 heq
        rcases hEq with ⟨-, rfl⟩
        exact ⟨ms, tr0, heq, rfl⟩

theorem stagger_helper (mk : BObject → TaskAction) (d : ℚ) (ms : List BObject)
    (tr0 : List HostCall) (hms : ms ≠ []) (htr0 : tasksOf tr0 = [])
    (ts : List Task)
    (hts : ts = tasksOf (tr0 ++ (scheduleFrom mk d 0 ms).map HostCall.addTask)) :
    ts ≠ [] ∧
    (∀ i t, ts.get? i = some t → t.wait = (i : ℚ) * d) ∧
    (∀ t, ts.get? 0 = some t → t.wait = 0) ∧
    (∀ i t t2, ts.get? i = some t → ts.get? (i + 1) = some t2 →
      t2.wait - t.wait = d) := by
  subst hts
  rw [tasksOf_append, htr0, List.nil_append, tasksOf_map_addTask]
  have hwait : ∀ i t, (scheduleFrom mk d 0 ms).get? i = some t → t.wait = (i : ℚ) * d := by
    intro i t ht
    rw [scheduleFrom_get?] at ht
    rcases Option.map_eq_some'.mp ht with ⟨m, -, rfl⟩
    simp
  refine ⟨?_, hwait, ?_, ?_⟩
  · intro hnil
    apply hms
    have hlen := scheduleFrom_length mk d 0 ms
    rw [hnil] at hlen
    exact List.eq_nil_of_length_eq_zero hlen.symm
  · intro t ht
    simpa using hwait 0 t ht
  · intro i t t2 ht ht2
    rw [hwait i t ht, hwait (i + 1) t2 ht2]
    push_cast
    ring

/-- C1: in every batch run of either operator over a non-empty model
list, the enqueued tasks are staggered with fixed delay: the `i`-th task
has `wait = i * task_delay`, so the first wait is zero and consecutive
waits differ by exactly `task_delay`. -/
theorem staggered_task_delays (a : Bool) (f : String) (k : Option String)
    (p : BatchProps) (host : Host) :
    (∀ tr, render_thumbnails_execute a f p host = (OpResult.FINISHED, tr) →
      tasksOf tr ≠ [] ∧
      (∀ i t, (tasksOf tr).get? i = some t → t.wait = (i : ℚ) * p.task_delay) ∧
      (∀ t, (tasksOf tr).get? 0 = some t → t.wait = 0) ∧
      (∀ i t t2, (tasksOf tr).get? i = some t → (tasksOf tr).get? (i + 1) = some t2 →
        t2.wait - t.wait = p.task_delay)) ∧
    (∀ tr, upload_models_execute a k p host = (OpResult.FINISHED, tr) →
      tasksOf tr ≠ [] ∧
      (∀ i t, (tasksOf tr).get? i = some t → t.wait = (i : ℚ) * p.task_delay) ∧
      (∀ t, (tasksOf tr).get? 0 = some t → t.wait = 0) ∧
      (∀ i t t2, (tasksOf tr).get? i = some t → (tasksOf tr).get? (i + 1) = some t2 →
        t2.wait - t.wait = p.task_delay)) := by
  constructor
  · intro tr hEq
    rcases render_finished_inv a f p host tr hEq with ⟨ms, tr0, hm, rfl⟩
    exact stagger_helper _ p.task_delay ms tr0
      (modelsToProcess_some_ne_nil p host ms tr0 hm)
      (modelsToProcess_trace_no_tasks p host (some ms) tr0 hm) _ rfl
  · intro tr hEq
    rcases upload_finished_inv a k p host tr hEq with ⟨ms, tr0, hm, rfl⟩
    exact stagger_helper _ p.task_delay ms tr0
      (modelsToProcess_some_ne_nil p host ms tr0 hm)
      (modelsToProcess_trace_no_tasks p host (some ms) tr0 hm) _ rfl

/-- Concrete instantiation of `staggered_task_delays`: a two-model run
of each operator enqueues a non-empty task list. -/
theorem staggered_task_delays_witness :
    tasksOf (render_thumbnails_execute true "m.blend" sampleProps sampleHost).2 ≠ [] ∧
    tasksOf (upload_models_execute true (some "key") sampleProps sampleHost).2 ≠ [] :=
  ⟨((staggered_task_delays true "m.blend" (some "key") sampleProps sampleHost).1
      (render_thumbnails_execute true "m.blend" sampleProps sampleHost).2 rfl).1,
   ((staggered_task_delays true "m.blend" (some "key") sampleProps sampleHost).2
      (upload_models_execute true (some "key") sampleProps sampleHost).2 rfl).1⟩

theorem modelsToProcess_trace_events (p : BatchProps) (host : Host)
    (r : Option (List BObject)) (tr0 : List HostCall)
    (hEq : modelsToProcess p host = (r, tr0)) :
    ∀ c ∈ tr0, c = HostCall.getSelectedModels := by
  unfold modelsToProcess at hEq
  split at hEq
  · rcases hEq with ⟨-, rfl⟩
    intro c hc
    simpa using hc
  · split at hEq
    · rcases hEq with ⟨-, rfl⟩
      intro c hc
      simp at hc
    · rcases hEq with ⟨-, rfl⟩
      intro c hc
      simp at hc

theorem tasksOf_schedule (mk : BObject → TaskAction) (d : ℚ) (ms : List BObject)
    (tr0 : List HostCall) (htr0 : tasksOf tr0 = []) :
    tasksOf (tr0 ++ (scheduleFrom mk d 0 ms).map HostCall.addTask) =
      scheduleFrom mk d 0 ms := by
  rw [tasksOf_append, htr0, List.nil_append, tasksOf_map_addTask]

theorem render_execute_events (a : Bool) (f : String) (p : BatchProps) (host : Host) :
    ∀ c ∈ (render_thumbnails_execute a f p host).2,
      c = HostCall.getSelectedModels ∨ ∃ t, c = HostCall.addTask t := by
  unfold render_thumbnails_execute
  split
  · intro c hc; simp at hc
  · split
    · intro c hc; simp at hc
    · split
      · rename_i tr0 heq
        intro c hc
        exact Or.inl (modelsToProcess_trace_events p host none tr0 heq c hc)
      · rename_i ms tr0 heq
        intro c hc
        rcases List.mem_append.mp hc with h | h
        · exact Or.inl (modelsToProcess_trace_events p host (some ms) tr0 heq c h)
        · rcases List.mem_map.mp h with ⟨t, -, rfl⟩
          exact Or.inr ⟨t, rfl⟩

theorem upload_execute_events (a : Bool) (k : Option String) (p : BatchProps) (host : Host) :
    ∀ c ∈ (upload_models_execute a k p host).2,
      c = HostCall.getSelectedModels ∨ ∃ t, c = HostCall.addTask t := by
  unfold upload_models_execute
  split
  · intro c hc; simp at hc
  · split
    · intro c hc; simp at hc
    · split
      · rename_i tr0 heq
        intro c hc
        exact Or.inl (modelsToProcess_trace_events p host none tr0 heq c hc)
      · rename_i ms tr0 heq
        intro c hc
        rcases List.mem_append.mp hc with h | h
        · exact Or.inl (modelsToProcess_trace_events p host (some ms) tr0 heq c h)
        · rcases List.mem_map.mp h with ⟨t, -, rfl⟩
          exact Or.inr ⟨t, rfl⟩

/-- C4: the operators batch only the two task kinds and use no
concurrency primitive beyond the delayed task queue: every host call an
`execute` makes is either the target lookup or `add_task`, and on a
finished run exactly one task is enqueued per model in the processing
list, with the per-model action stored in the task rather than run
directly. -/
theorem execute_only_enqueues_tasks (a : Bool) (f : String) (k : Option String)
    (p : BatchProps) (host : Host) :
    (∀ c ∈ (render_thumbnails_execute a f p host).2,
       c = HostCall.getSelectedModels ∨ ∃ t, c = HostCall.addTask t) ∧
    (∀ c ∈ (upload_models_execute a k p host).2,
       c = HostCall.getSelectedModels ∨ ∃ t, c = HostCall.addTask t) ∧
    (∀ tr, render_thumbnails_execute a f p host = (OpResult.FINISHED, tr) →
      ∃ ms tr0, modelsToProcess p host = (some ms, tr0) ∧
        (tasksOf tr).length = ms.length ∧
        ∀ j, (tasksOf tr).get? j = (ms.get? j).map
          (fun m => ⟨TaskAction.renderThumbnail m.name, (j : ℚ) * p.task_delay⟩)) ∧
    (∀ tr, upload_models_execute a k p host = (OpResult.FINISHED, tr) →
      ∃ ms tr0, modelsToProcess p host = (some ms, tr0) ∧
        (tasksOf tr).length = ms.length ∧
        ∀ j, (tasksOf tr).get? j = (ms.get? j).map
          (fun m => ⟨TaskAction.upload m.name (m.blenderkit.asset_base_id != ""),
                     (j : ℚ) * p.task_delay⟩)) := by
  refine ⟨render_execute_events a f p host, upload_execute_events a k p host, ?_, ?_⟩
  · intro tr hEq
    rcases render_finished_inv a f p host tr hEq with ⟨ms, tr0, hm, rfl⟩
    have htr0 := modelsToProcess_trace_no_tasks p host (some ms) tr0 hm
    refine ⟨ms, tr0, hm, ?_, ?_⟩
    · rw [tasksOf_schedule _ _ _ _ htr0, scheduleFrom_length]
    · intro j
      rw [tasksOf_schedule _ _ _ _ htr0, scheduleFrom_get?]
      simp
  · intro tr hEq
    rcases upload_finished_inv a k p host tr hEq with ⟨ms, tr0, hm, rfl⟩
    have htr0 := modelsToProcess_trace_no_tasks p host (some ms) tr0 hm
    refine ⟨ms, tr0, hm, ?_, ?_⟩
    · rw [tasksOf_schedule _ _ _ _ htr0, scheduleFrom_length]
    · intro j
      rw [tasksOf_schedule _ _ _ _ htr0, scheduleFrom_get?]
      simp

/-- Concrete instantiation of `execute_only_enqueues_tasks`: the sample
two-model render run enqueues exactly two tasks. -/
theorem execute_only_enqueues_tasks_witness :
    (tasksOf (render_thumbnails_execute true "m.blend" sampleProps sampleHost).2).length
      = 2 := by
  obtain ⟨ms, tr0, hm, hlen, -⟩ :=
    (execute_only_enqueues_tasks true "m.blend" (some "key") sampleProps sampleHost).2.2.1
      (render_thumbnails_execute true "m.blend" sampleProps sampleHost).2 rfl
  have hms : modelsToProcess sampleProps sampleHost
      = (some [sampleModelA, sampleModelB], [HostCall.getSelectedModels]) := rfl
  rw [hms] at hm
  injection hm with h1 h2
  injection h1 with h1
  rw [hlen, ← h1]
  rfl

theorem modelsToProcess_selected (p : BatchProps) (host : Host)
    (ms : List BObject) (tr0 : List HostCall)
    (hmode : p.target_mode = TargetMode.SELECTED)
    (hEq : modelsToProcess p host = (some ms, tr0)) :
    ms = host.get_selected_models := by
  unfold modelsToProcess at hEq
  rw [hmode] at hEq
  by_cases hne : host.get_selected_models.isEmpty <;> simp [hne] at hEq
  exact hEq.1.symm

theorem modelsToProcess_collection (p : BatchProps) (host : Host)
    (objs ms : List BObject) (tr0 : List HostCall)
    (hmode : p.target_mode = TargetMode.COLLECTION)
    (hcol : p.target_collection = some objs)
    (hEq : modelsToProcess p host = (some ms, tr0)) :
    ms = modelsFromCollection objs := by
  unfold modelsToProcess at hEq
  rw [hmode, hcol] at hEq
  by_cases hne : (modelsFromCollection objs).isEmpty <;>
    simp only [hne] at hEq <;> simp at hEq
  exact hEq.1.symm

theorem scheduleFrom_map_name (mk : BObject → TaskAction) (d : ℚ) :
    ∀ (i : Nat) (ms : List BObject),
      (scheduleFrom mk d i ms).map (fun t => taskModelName t.action) =
        ms.map (fun m => taskModelName (mk m))
  | _, [] => rfl
  | i, m :: rest => by
    simpa [scheduleFrom] using scheduleFrom_map_name mk d (i + 1) rest

theorem render_cancelled_no_tasks (a : Bool) (f : String) (p : BatchProps)
    (host : Host) (tr : List HostCall)
    (hEq : render_thumbnails_execute a f p host = (OpResult.CANCELLED, tr)) :
    tasksOf tr = [] := by
  unfold render_thumbnails_execute at hEq
  split at hEq
  · rcases hEq with ⟨-, rfl⟩; rfl
  · split at hEq
    · rcases hEq with ⟨-, rfl⟩; rfl
    · split at hEq
      · rename_i tr0 heq
        rcases hEq with ⟨-, rfl⟩
        exact modelsToProcess_trace_no_tasks p host none _ heq
      · simp at hEq

theorem upload_cancelled_no_tasks (a : Bool) (k : Option String) (p : BatchProps)
    (host : Host) (tr : List HostCall)
    (hEq : upload_models_execute a k p host = (OpResult.CANCELLED, tr)) :
    tasksOf tr = [] := by
  unfold upload_models_execute at hEq
  split at hEq
  · rcases hEq with ⟨-, rfl⟩; rfl
  · split at hEq
    · rcases hEq with ⟨-, rfl⟩; rfl
    · split at hEq
      · rename_i tr0 heq
        rcases hEq with ⟨-, rfl⟩
        exact modelsToProcess_trace_no_tasks p host none _ heq
      · simp at hEq

/-- C5: target picking is governed by the two-valued `target_mode`: in
`SELECTED` mode the processed models are exactly the host's
`get_selected_models()`, in `COLLECTION` mode exactly the parentless
collection objects carrying blenderkit data (non-empty blenderkit name,
non-empty `asset_base_id`, or a set `instance_collection`); a cancelled
run processes nothing. -/
theorem target_mode_selection (a : Bool) (f : String) (k : Option String)
    (p : BatchProps) (host : Host) :
    (p.target_mode = TargetMode.SELECTED →
      (∀ tr, render_thumbnails_execute a f p host = (OpResult.FINISHED, tr) →
        (tasksOf tr).map (fun t => taskModelName t.action) =
          host.get_selected_models.map BObject.name) ∧
      (∀ tr, upload_models_execute a k p host = (OpResult.FINISHED, tr) →
        (tasksOf tr).map (fun t => taskModelName t.action) =
          host.get_selected_models.map BObject.name)) ∧
    (∀ objs, p.target_mode = TargetMode.COLLECTION → p.target_collection = some objs →
      (∀ tr, render_thumbnails_execute a f p host = (OpResult.FINISHED, tr) →
        (tasksOf tr).map (fun t => taskModelName t.action) =
          (objs.filter (fun o => o.parent.isNone && o.has_blenderkit &&
            (o.blenderkit.name != "" || o.blenderkit.asset_base_id != "" ||
             o.instance_collection.isSome))).map BObject.name) ∧
      (∀ tr, upload_models_execute a k p host = (OpResult.FINISHED, tr) →
        (tasksOf tr).map (fun t => taskModelName t.action) =
          (objs.filter (fun o => o.parent.isNone && o.has_blenderkit &&
            (o.blenderkit.name != "" || o.blenderkit.asset_base_id != "" ||
             o.instance_collection.isSome))).map BObject.name)) ∧
    (∀ tr, render_thumbnails_execute a f p host = (OpResult.CANCELLED, tr) →
      tasksOf tr = []) ∧
    (∀ tr, upload_models_execute a k p host = (OpResult.CANCELLED, tr) →
      tasksOf tr = []) := by
  have hren : ∀ tr, render_thumbnails_execute a f p host = (OpResult.FINISHED, tr) →
      ∃ ms tr0, modelsToProcess p host = (some ms, tr0) ∧
        (tasksOf tr).map (fun t => taskModelName t.action) = ms.map BObject.name := by
    intro tr hEq
    rcases render_finished_inv a f p host tr hEq with ⟨ms, tr0, hm, rfl⟩
    refine ⟨ms, tr0, hm, ?_⟩
    rw [tasksOf_schedule _ _ _ _ (modelsToProcess_trace_no_tasks p host (some ms) tr0 hm),
      scheduleFrom_map_name]
    rfl
  have hup : ∀ tr, upload_models_execute a k p host = (OpResult.FINISHED, tr) →
      ∃ ms tr0, modelsToProcess p host = (some ms, tr0) ∧
        (tasksOf tr).map (fun t => taskModelName t.action) = ms.map BObject.name := by
    intro tr hEq
    rcases upload_finished_inv a k p host tr hEq with ⟨ms, tr0, hm, rfl⟩
    refine ⟨ms, tr0, hm, ?_⟩
    rw [tasksOf_schedule _ _ _ _ (modelsToProcess_trace_no_tasks p host (some ms) tr0 hm),
      scheduleFrom_map_name]
    rfl
  refine ⟨?_, ?_, render_cancelled_no_tasks a f p host, upload_cancelled_no_tasks a k p host⟩
  · intro hmode
    constructor
    · intro tr hEq
      rcases hren tr hEq with ⟨ms, tr0, hm, hmap⟩
      rw [hmap, modelsToProcess_selected p host ms tr0 hmode hm]
    · intro tr hEq
      rcases hup tr hEq with ⟨ms, tr0, hm, hmap⟩
      rw [hmap, modelsToProcess_selected p host ms tr0 hmode hm]
  · intro objs hmode hcol
    constructor
    · intro tr hEq
      rcases hren tr hEq with ⟨ms, tr0, hm, hmap⟩
      rw [hmap, modelsToProcess_collection p host objs ms tr0 hmode hcol hm]
      rfl
    · intro tr hEq
      rcases hup tr hEq with ⟨ms, tr0, hm, hmap⟩
      rw [hmap, modelsToProcess_collection p host objs ms tr0 hmode hcol hm]
      rfl

/-- Concrete instantiation of `target_mode_selection`: the sample
`SELECTED`-mode run processes exactly the two selected models. -/
theorem target_mode_selection_witness :
    (tasksOf (render_thumbnails_execute true "m.blend" sampleProps sampleHost).2).map
      (fun t => taskModelName t.action) = ["A", "B"] := by
  have h := ((target_mode_selection true "m.blend" (some "key") sampleProps sampleHost).1
      rfl).1 (render_thumbnails_execute true "m.blend" sampleProps sampleHost).2 rfl
  rw [h]
  rfl

theorem findInBlExt_none_of_no_hit (module_name : String) :
    ∀ l, (∀ ns ∈ l, nsHit module_name ns = false) → findInBlExt module_name l = none := by
  intro l
  induction l with
  | nil => intro _; rfl
  | cons ns rest ih =>
    intro hno
    have hns := hno ns (List.mem_cons_self ns rest)
    have hrest := fun x hx => hno x (List.mem_cons_of_mem ns hx)
    unfold findInBlExt
    by_cases hsw : strStartsWith ns.1 "__" = true
    · rw [if_pos hsw]
      exact ih hrest
    · rw [if_neg hsw]
      have hsw2 : strStartsWith ns.1 "__" = false := by
        revert hsw
        cases strStartsWith ns.1 "__" <;> simp
      unfold nsHit at hns
      rw [hsw2] at hns
      rw [Bool.not_false, Bool.true_and, Bool.or_eq_false_iff] at hns
      have hfind : (ns.2.attrs.find? fun a =>
          !strStartsWith a.1 "__" && a.2.contains module_name) = none := by
        rw [List.find?_eq_none]
        intro a ha hpa
        have hany : (ns.2.attrs.any fun a =>
            !strStartsWith a.1 "__" && a.2.contains module_name) = true :=
          List.any_eq_true.mpr ⟨a, ha, hpa⟩
        rw [hns.2] at hany
        exact Bool.false_ne_true hany
      rw [if_neg (by rw [hns.1]; exact Bool.false_ne_true), hfind]
      exact ih hrest

theorem findInBlExt_some_shape (module_name : String) :
    ∀ l s, findInBlExt module_name l = some s → blExtShape module_name s l := by
  intro l
  induction l with
  | nil => intro s h; cases h
  | cons ns rest ih =>
    intro s h
    unfold findInBlExt at h
    split at h
    · rcases ih s h with ⟨n, ⟨m, hm⟩, hshape⟩
      exact ⟨n, ⟨m, List.mem_cons_of_mem ns hm⟩, hshape⟩
    · split at h
      · exact ⟨ns.1, ⟨ns.2, by simp⟩, Or.inl (Option.some.inj h).symm⟩
      · split at h
        · rename_i a heq
          exact ⟨ns.1, ⟨ns.2, by simp⟩, Or.inr ⟨a.1, (Option.some.inj h).symm⟩⟩
        · rcases ih s h with ⟨n, ⟨m, hm⟩, hshape⟩
          exact ⟨n, ⟨m, List.mem_cons_of_mem ns hm⟩, hshape⟩

theorem findInBlExt_isSome_of_hit (module_name : String) :
    ∀ l, (∃ ns ∈ l, nsHit module_name ns = true) →
      ∃ s, findInBlExt module_name l = some s := by
  intro l
  induction l with
  | nil => rintro ⟨ns, hmem, -⟩; cases hmem
  | cons ns rest ih =>
    rintro ⟨n, hmem, hhit⟩
    unfold findInBlExt
    by_cases hsw : strStartsWith ns.1 "__" = true
    · rw [if_pos hsw]
      apply ih
      rcases List.mem_cons.mp hmem with rfl | hmem2
      · unfold nsHit at hhit
        rw [hsw] at hhit
        simp at hhit
      · exact ⟨n, hmem2, hhit⟩
    · rw [if_neg hsw]
      by_cases ha1 : (ns.2.attrs.any fun a => a.1 == module_name) = true
      · rw [if_pos ha1]
        exact ⟨_, rfl⟩
      · rw [if_neg ha1]
        cases hfind : ns.2.attrs.find? (fun a =>
            !strStartsWith a.1 "__" && a.2.contains module_name) with
        | some a =>
          exact ⟨_, rfl⟩
        | none =>
          show ∃ s, findInBlExt module_name rest = some s
          apply ih
          rcases List.mem_cons.mp hmem with rfl | hmem2
          · exfalso
            unfold nsHit at hhit
            rw [List.find?_eq_none] at hfind
            rcases Bool.or_eq_true_iff.mp
                ((Bool.and_eq_true_iff.mp hhit).2) with h2 | h2
            · exact ha1 h2
            · rcases List.any_eq_true.mp h2 with ⟨a, ha, hpa⟩
              exact hfind a ha hpa
          · exact ⟨n, hmem2, hhit⟩


/-- C2: `find_module` returns either `None`, the bare `module_name`
(addon-path fallback), or a dotted `bl_ext` path built from an installed
extension namespace; the `bl_ext` scan wins when some (non-internal)
namespace or one-level subnamespace has the attribute, otherwise the
addons-path fallback decides the result. -/
theorem find_module_characterization (env : FinderEnv) (module_name : String) :
    (find_module env module_name = none ∨
     find_module env module_name = some module_name ∨
     ∃ s, find_module env module_name = some s ∧
       blExtShape module_name s env.namespaces) ∧
    (env.hasBlExt = true → (∃ ns ∈ env.namespaces, nsHit module_name ns = true) →
      ∃ s, find_module env module_name = some s ∧
        blExtShape module_name s env.namespaces) ∧
    ((env.hasBlExt = false ∨ ∀ ns ∈ env.namespaces, nsHit module_name ns = false) →
      (env.addonPaths.any (fun entries => entries.contains module_name) = true →
        find_module env module_name = some module_name) ∧
      (env.addonPaths.any (fun entries => entries.contains module_name) = false →
        find_module env module_name = none)) := by
  have hblext : ∀ s, env.hasBlExt = true →
      findInBlExt module_name env.namespaces = some s →
      find_module env module_name = some s := by
    intro s h1 h2
    unfold find_module
    rw [h1]
    simp [h2]
  have hfallthrough : ∀ x,
      (if env.hasBlExt then findInBlExt module_name env.namespaces else none) = none →
      (if env.addonPaths.any (fun entries => entries.contains module_name) then
        some module_name else none) = x →
      find_module env module_name = x := by
    intro x hfb hx
    unfold find_module
    rw [hfb]
    exact hx
  refine ⟨?_, ?_, ?_⟩
  · cases hbe : env.hasBlExt with
    | false =>
      have hfb : (if env.hasBlExt then findInBlExt module_name env.namespaces else none)
          = none := by rw [hbe]; rfl
      by_cases hap : env.addonPaths.any (fun entries => entries.contains module_name) = true
      · right; left
        exact hfallthrough _ hfb (if_pos hap)
      · left
        exact hfallthrough _ hfb (if_neg hap)
    | true =>
      cases hfi : findInBlExt module_name env.namespaces with
      | some s =>
        right; right
        exact ⟨s, hblext s hbe hfi,
          findInBlExt_some_shape module_name env.namespaces s hfi⟩
      | none =>
        have hfb : (if env.hasBlExt then findInBlExt module_name env.namespaces else none)
            = none := by rw [hbe]; simpa using hfi
        by_cases hap : env.addonPaths.any (fun entries => entries.contains module_name) = true
        · right; left
          exact hfallthrough _ hfb (if_pos hap)
        · left
          exact hfallthrough _ hfb (if_neg hap)
  · intro hbe hhit
    rcases findInBlExt_isSome_of_hit module_name env.namespaces hhit with ⟨s, hs⟩
    exact ⟨s, hblext s hbe hs, findInBlExt_some_shape module_name env.namespaces s hs⟩
  · intro hno
    have hfb : (if env.hasBlExt then findInBlExt module_name env.namespaces else none)
        = none := by
      rcases hno with hno | hno
      · rw [hno]; rfl
      · cases hbe : env.hasBlExt with
        | false => rfl
        | true =>
          simpa using findInBlExt_none_of_no_hit module_name env.namespaces hno
    constructor
    · intro hap
      exact hfallthrough _ hfb (if_pos hap)
    · intro hap
      exact hfallthrough _ hfb (if_neg (by rw [hap]; exact Bool.false_ne_true))

/-- Concrete instantiation of `find_module_characterization`: in the
sample environment the `bl_ext` scan finds the module and returns a
dotted extension path. -/
theorem find_module_characterization_witness :
    ∃ s, find_module finderEnvSample "blenderkit" = some s ∧
      blExtShape "blenderkit" s finderEnvSample.namespaces :=
  (find_module_characterization finderEnvSample "blenderkit").2.1 rfl
    ⟨("user_default", { attrs := [("blenderkit", [])] }), by decide, by decide⟩

theorem trigger_upload_skip (f : String) (host : Host) (bp : BatchProps)
    (objects : List BObject) (model_name : String) (model : BObject)
    (hfind : objects.find? (fun o => o.name == model_name) = some model)
    (hbk : model.has_blenderkit = true)
    (hm : bp.reupload_metadata = false) (ht : bp.reupload_thumbnail = false)
    (hf : bp.reupload_main_file = false) :
    trigger_upload true f host bp objects model_name true =
      (some { model.blenderkit with
          uploading := false
          upload_state := "Skipped: No re-upload options selected." }, []) := by
  have hset : uploadSet true bp = [] := by
    unfold uploadSet
    rw [hm, ht, hf]
    rfl
  unfold trigger_upload
  rw [hfind]
  simp [hbk, hset]

/-- C6: a fresh upload uploads exactly METADATA, THUMBNAIL and MAINFILE;
a re-upload uploads exactly the components whose toggles are enabled;
the upload operator marks a model as re-upload iff `asset_base_id` is
non-empty; and a re-upload with all three toggles disabled records the
skipped state, clears `uploading` and never calls `asset_upload`. -/
theorem upload_component_set (a : Bool) (k : Option String) (f : String)
    (bp : BatchProps) (host : Host) (objects : List BObject) (model_name : String) :
    uploadSet false bp =
      [UploadComponent.METADATA, UploadComponent.THUMBNAIL, UploadComponent.MAINFILE] ∧
    (∀ c, c ∈ uploadSet true bp ↔
      ((c = UploadComponent.METADATA ∧ bp.reupload_metadata = true) ∨
       (c = UploadComponent.THUMBNAIL ∧ bp.reupload_thumbnail = true) ∨
       (c = UploadComponent.MAINFILE ∧ bp.reupload_main_file = true))) ∧
    (∀ ms tr0 tr j m, modelsToProcess bp host = (some ms, tr0) →
      upload_models_execute a k bp host = (OpResult.FINISHED, tr) →
      ms.get? j = some m →
      (tasksOf tr).get? j = some ⟨TaskAction.upload m.name
        (m.blenderkit.asset_base_id != ""), (j : ℚ) * bp.task_delay⟩) ∧
    (∀ model, objects.find? (fun o => o.name == model_name) = some model →
      model.has_blenderkit = true →
      bp.reupload_metadata = false → bp.reupload_thumbnail = false →
      bp.reupload_main_file = false →
      trigger_upload true f host bp objects model_name true =
        (some { model.blenderkit with
            uploading := false
            upload_state := "Skipped: No re-upload options selected." }, []) ∧
      ∀ ud ed us, HostCall.assetUpload ud ed us ∉
        (trigger_upload true f host bp objects model_name true).2) := by
  refine ⟨rfl, ?_, ?_, ?_⟩
  · intro c
    cases hm : bp.reupload_metadata <;> cases ht : bp.reupload_thumbnail <;>
      cases hf : bp.reupload_main_file <;> cases c <;>
      simp [uploadSet, hm, ht, hf]
  · intro ms tr0 tr j m hm hEq hget
    rcases upload_finished_inv a k bp host tr hEq with ⟨ms2, tr02, hm2, rfl⟩
    rw [hm] at hm2
    injection hm2 with h1 h2
    injection h1 with h1
    subst h1
    subst h2
    rw [tasksOf_schedule _ _ _ _ (modelsToProcess_trace_no_tasks bp host (some ms) tr0 hm),
      scheduleFrom_get?, hget]
    simp
  · intro model hfind hbk hm ht hf
    have h1 := trigger_upload_skip f host bp objects model_name model hfind hbk hm ht hf
    refine ⟨h1, ?_⟩
    intro ud ed us hmem
    rw [h1] at hmem
    simp at hmem

/-- Concrete instantiation of `upload_component_set`: a re-upload of the
sample model with all toggles off is skipped. -/
theorem upload_component_set_witness :
    trigger_upload true "m.blend" sampleHost sampleNoReupProps [sampleModelB] "B" true =
      (some { sampleModelB.blenderkit with
          uploading := false
          upload_state := "Skipped: No re-upload options selected." }, []) :=
  ((upload_component_set true (some "key") "m.blend" sampleNoReupProps sampleHost
      [sampleModelB] "B").2.2.2 sampleModelB rfl rfl rfl rfl rfl).1

/-- C7: when THUMBNAIL is in the upload set but the model's thumbnail is
empty or its resolved path does not exist, `_trigger_upload` records the
error, clears `uploading` and returns before `asset_upload` is called. -/
theorem thumbnail_missing_aborts_upload (f : String) (host : Host) (bp : BatchProps)
    (objects : List BObject) (model_name : String) (is_reupload : Bool) (model : BObject)
    (hfind : objects.find? (fun o => o.name == model_name) = some model)
    (hbk : model.has_blenderkit = true)
    (hthumb : UploadComponent.THUMBNAIL ∈ uploadSet is_reupload bp)
    (hmiss : model.blenderkit.thumbnail = "" ∨
      host.fs_exists (host.abspath model.blenderkit.thumbnail) = false) :
    trigger_upload true f host bp objects model_name is_reupload =
      (some { model.blenderkit with
          uploading := false
          upload_state :=
            "Error: Thumbnail selected for upload but not found or path invalid." },
       []) ∧
    ∀ ud ed us, HostCall.assetUpload ud ed us ∉
      (trigger_upload true f host bp objects model_name is_reupload).2 := by
  have hne : (uploadSet is_reupload bp).isEmpty = false := by
    cases hu : uploadSet is_reupload bp with
    | nil => rw [hu] at hthumb; cases hthumb
    | cons x xs => rfl
  have hc : (uploadSet is_reupload bp).contains UploadComponent.THUMBNAIL = true :=
    List.elem_eq_true_of_mem hthumb
  have hcond : (model.blenderkit.thumbnail == "" ||
      host.abspath model.blenderkit.thumbnail == "" ||
      !host.fs_exists (host.abspath model.blenderkit.thumbnail)) = true := by
    rcases hmiss with hm | hm
    · rw [hm]
      rfl
    · rw [hm]
      simp
  have h1 : trigger_upload true f host bp objects model_name is_reupload =
      (some { model.blenderkit with
          uploading := false
          upload_state :=
            "Error: Thumbnail selected for upload but not found or path invalid." },
       []) := by
    unfold trigger_upload
    rw [hfind]
    simp [hbk, hne, hc, hcond]
    intro hcontra
    exact absurd hthumb hcontra
  refine ⟨h1, ?_⟩
  intro ud ed us hmem
  rw [h1] at hmem
  simp at hmem

/-- Concrete instantiation of `thumbnail_missing_aborts_upload`: the
sample model has an empty thumbnail, so its fresh upload aborts. -/
theorem thumbnail_missing_aborts_upload_witness :
    trigger_upload true "m.blend" sampleHost sampleProps [sampleModelA] "A" false =
      (some { sampleModelA.blenderkit with
          uploading := false
          upload_state :=
            "Error: Thumbnail selected for upload but not found or path invalid." },
       []) :=
  (thumbnail_missing_aborts_upload "m.blend" sampleHost sampleProps [sampleModelA] "A"
      false sampleModelA rfl rfl (by decide) (Or.inl rfl)).1

theorem findUniqueThumb_eq (ex : String → Bool) (dir slug : String) (n : Nat)
    (hn : ex (thumbCandAbs dir slug n) = false)
    (hm : ∀ m, m < n → ex (thumbCandAbs dir slug m) = true) :
    ∀ fuel i, i ≤ n → n < i + fuel →
      findUniqueThumb ex dir slug fuel i (thumbCandAbs dir slug i) (thumbCandRel slug i)
        = some (thumbCandAbs dir slug n, thumbCandRel slug n) := by
  intro fuel
  induction fuel with
  | zero => intro i hi hlt; omega
  | succ fuel ih =>
    intro i hi hlt
    unfold findUniqueThumb
    by_cases hin : i = n
    · subst hin
      rw [hn, if_neg Bool.false_ne_true]
    · have hlt2 : i < n := lt_of_le_of_ne hi hin
      rw [hm i hlt2, if_pos rfl]
      exact ih (i + 1) hlt2 (by omega)

/-- C8: whenever `_trigger_thumbnail_render` reaches the path-selection
loop and candidate `n` (`<slug>.jpg`, then `<slug>_0000.jpg`, ...) is
the first one that does not exist on disk, the relative path stored on
`blenderkit.thumbnail` is exactly that candidate, whose absolute path
did not exist at selection time. -/
theorem thumbnail_target_is_fresh (f : String) (host : Host) (objects : List BObject)
    (model_name : String) (fuel n : Nat) (model : BObject)
    (hfind : objects.find? (fun o => o.name == model_name) = some model)
    (hf : (f == "") = false)
    (hn : host.fs_exists (thumbCandAbs (host.dirname f) (host.slugify model.name) n)
      = false)
    (hm : ∀ m, m < n →
      host.fs_exists (thumbCandAbs (host.dirname f) (host.slugify model.name) m) = true)
    (hfuel : n < fuel) :
    ∃ bk tr, trigger_thumbnail_render true f host objects model_name fuel
        = (some bk, tr) ∧
      bk.thumbnail = thumbCandRel (host.slugify model.name) n ∧
      host.fs_exists (thumbCandAbs (host.dirname f) (host.slugify model.name) n)
        = false ∧
      ∀ m, m < n →
        host.fs_exists (thumbCandAbs (host.dirname f) (host.slugify model.name) m)
          = true := by
  have hloop2 : findUniqueThumb host.fs_exists (host.dirname f) (host.slugify model.name)
      fuel 0 (pathJoin (host.dirname f) (host.slugify model.name) ++ ".jpg")
      ("//" ++ host.slugify model.name ++ ".jpg")
      = some (thumbCandAbs (host.dirname f) (host.slugify model.name) n,
          thumbCandRel (host.slugify model.name) n) :=
    findUniqueThumb_eq host.fs_exists (host.dirname f) (host.slugify model.name)
      n hn hm fuel 0 (Nat.zero_le n) (by omega)
  unfold trigger_thumbnail_render
  simp only [hfind, hf]
  rw [if_neg (by simp)]
  rw [if_neg Bool.false_ne_true]
  rw [hloop2]
  cases hsave : host.save
      (pathJoin host.tempdir ("thumb_" ++ host.slugify model.name ++ ".blend")) with
  | error e => exact ⟨_, _, rfl, rfl, hn, hm⟩
  | ok u =>
    cases hh : host.get_hierarchy model.name with
    | error e => exact ⟨_, _, rfl, rfl, hn, hm⟩
    | ok obnames => exact ⟨_, _, rfl, rfl, hn, hm⟩

theorem get_model_upload_data_spec (host : Host) (bp : BatchProps) (model : BObject) :
    (model.has_blenderkit = false ∧ get_model_upload_data host bp model = (none, [])) ∨
    (∃ e, get_model_upload_data host bp model =
        (none, [HostCall.getHierarchy model.name]) ∧
      host.get_hierarchy model.name = Except.error e) ∨
    (∃ ed ud, get_model_upload_data host bp model =
        (some (ed, ud), [HostCall.getHierarchy model.name]) ∧
      host.get_hierarchy model.name = Except.ok ed.models) := by
  unfold get_model_upload_data
  by_cases hbk : model.has_blenderkit = false
  · left
    exact ⟨hbk, by rw [if_pos hbk]⟩
  · rw [if_neg hbk]
    cases hh : host.get_hierarchy model.name with
    | error e =>
      right; left
      exact ⟨e, rfl, rfl⟩
    | ok obnames =>
      right; right
      exact ⟨_, _, rfl, rfl⟩

theorem trigger_thumbnail_trace_cases (a : Bool) (f : String) (host : Host)
    (objects : List BObject) (model_name : String) (fuel : Nat) :
    (trigger_thumbnail_render a f host objects model_name fuel).2 = [] ∨
    ∃ model tb, objects.find? (fun o => o.name == model_name) = some model ∧
      tb = pathJoin host.tempdir ("thumb_" ++ host.slugify model.name ++ ".blend") ∧
      ((trigger_thumbnail_render a f host objects model_name fuel).2 =
         [HostCall.saveAsMainfile tb] ∨
       (trigger_thumbnail_render a f host objects model_name fuel).2 =
         [HostCall.saveAsMainfile tb, HostCall.getHierarchy model.name] ∨
       ∃ ms tp, host.get_hierarchy model.name = Except.ok ms ∧
         (trigger_thumbnail_render a f host objects model_name fuel).2 =
           [HostCall.saveAsMainfile tb, HostCall.getHierarchy model.name,
            HostCall.startModelThumbnailer ms model.name tb tp]) := by
  unfold trigger_thumbnail_render
  split
  · left; rfl
  · split
    · left; rfl
    · rename_i model hfind
      split
      · left; rfl
      · simp only []
        split
        · left; rfl
        · split
          · rename_i e hsave
            right
            exact ⟨model, _, hfind, rfl, Or.inl rfl⟩
          · split
            · rename_i e hh
              right
              exact ⟨model, _, hfind, rfl, Or.inr (Or.inl rfl)⟩
            · rename_i obnames hh
              right
              exact ⟨model, _, hfind, rfl, Or.inr (Or.inr ⟨obnames, _, hh, rfl⟩)⟩

theorem trigger_upload_trace_cases (a : Bool) (f : String) (host : Host) (bp : BatchProps)
    (objects : List BObject) (model_name : String) (is_reupload : Bool) :
    ∀ res, trigger_upload a f host bp objects model_name is_reupload = res →
      res.2 = [] ∨
      ∃ model, objects.find? (fun o => o.name == model_name) = some model ∧
        (res.2 = [HostCall.getHierarchy model.name] ∨
         (∃ s, res.2 = [HostCall.getHierarchy model.name, HostCall.saveAsMainfile s]) ∨
         (∃ ud ed, (res.2 = [HostCall.getHierarchy model.name,
              HostCall.assetUpload ud ed (uploadSet is_reupload bp)] ∨
            (∃ s, res.2 = [HostCall.getHierarchy model.name, HostCall.saveAsMainfile s,
              HostCall.assetUpload ud ed (uploadSet is_reupload bp)])) ∧
           host.get_hierarchy model.name = Except.ok ed.models)) := by
  intro res hres
  unfold trigger_upload at hres
  split at hres
  · subst hres; left; rfl
  · split at hres
    · subst hres; left; rfl
    · rename_i model hfind
      split at hres
      · subst hres; left; rfl
      · rename_i hbk
        simp only [] at hres
        split at hres <;> first | (subst hres; left; rfl) | skip
        split at hres <;> first | (subst hres; left; rfl) | skip
        split at hres
        · rename_i tr heq
          rcases get_model_upload_data_spec host bp model with
            ⟨hbk2, -⟩ | ⟨e, hgm, hh⟩ | ⟨ed, ud, hgm, hh⟩
          · exact absurd hbk2 hbk
          · rw [heq] at hgm
            injection hgm with h1 h2
            subst h2
            subst hres
            right
            exact ⟨model, hfind, Or.inl rfl⟩
          · rw [heq] at hgm
            injection hgm with h1 h2
            injection h1
        · rename_i ed0 ud0 tr heq
          rcases get_model_upload_data_spec host bp model with
            ⟨hbk2, -⟩ | ⟨e, hgm, hh⟩ | ⟨ed, ud, hgm, hh⟩
          · exact absurd hbk2 hbk
          · rw [heq] at hgm
            injection hgm with h1 h2
            injection h1
          · rw [heq] at hgm
            injection hgm with h1 h2
            injection h1 with h1
            injection h1 with h3 h4
            subst h3
            subst h4
            subst h2
            split at hres
            · split at hres
              · subst hres
                right
                exact ⟨model, hfind, Or.inl rfl⟩
              · split at hres
                · rename_i e2 hsave
                  subst hres
                  right
                  exact ⟨model, hfind, Or.inr (Or.inl ⟨_, rfl⟩)⟩
                · rename_i u hsave
                  subst hres
                  right
                  exact ⟨model, hfind, Or.inr (Or.inr ⟨_, _, Or.inr ⟨_, rfl⟩, hh⟩)⟩
            · subst hres
              right
              exact ⟨model, hfind, Or.inr (Or.inr ⟨_, _, Or.inl rfl, hh⟩)⟩

/-- C3: the domain logic is delegated to the host add-on: export data's
hierarchy comes only from `bk_utils.get_hierarchy`, a thumbnail render is
started only through `bk_autothumb.start_model_thumbnailer` (fed exactly
the hierarchy the host returned), an upload happens only through
`bk_client_lib.asset_upload` (whose export data's models are exactly the
host-returned hierarchy), and the trigger functions make no external
calls besides save-copy, hierarchy lookup and those two entry points. -/
theorem host_delegation (a : Bool) (f : String) (host : Host) (bp : BatchProps)
    (objects : List BObject) (model_name : String) (fuel : Nat) (is_reupload : Bool)
    (model : BObject) :
    (∀ ed ud tr, get_model_upload_data host bp model = (some (ed, ud), tr) →
      host.get_hierarchy model.name = Except.ok ed.models ∧
      HostCall.getHierarchy model.name ∈ tr) ∧
    (∀ ms an fp tp, HostCall.startModelThumbnailer ms an fp tp ∈
        (trigger_thumbnail_render a f host objects model_name fuel).2 →
      ∃ m, objects.find? (fun o => o.name == model_name) = some m ∧ an = m.name ∧
        host.get_hierarchy m.name = Except.ok ms ∧
        HostCall.getHierarchy m.name ∈
          (trigger_thumbnail_render a f host objects model_name fuel).2) ∧
    (∀ ud ed us, HostCall.assetUpload ud ed us ∈
        (trigger_upload a f host bp objects model_name is_reupload).2 →
      ∃ m, objects.find? (fun o => o.name == model_name) = some m ∧
        host.get_hierarchy m.name = Except.ok ed.models ∧
        HostCall.getHierarchy m.name ∈
          (trigger_upload a f host bp objects model_name is_reupload).2) ∧
    (∀ c ∈ (trigger_thumbnail_render a f host objects model_name fuel).2,
      (∃ s, c = HostCall.saveAsMainfile s) ∨ (∃ nm, c = HostCall.getHierarchy nm) ∨
      (∃ ms an fp tp, c = HostCall.startModelThumbnailer ms an fp tp)) ∧
    (∀ c ∈ (trigger_upload a f host bp objects model_name is_reupload).2,
      (∃ nm, c = HostCall.getHierarchy nm) ∨ (∃ s, c = HostCall.saveAsMainfile s) ∨
      (∃ ud ed us, c = HostCall.assetUpload ud ed us)) := by
  have hupcases := trigger_upload_trace_cases a f host bp objects model_name is_reupload
    (trigger_upload a f host bp objects model_name is_reupload) rfl
  refine ⟨?_, ?_, ?_, ?_, ?_⟩
  · intro ed ud tr h
    rcases get_model_upload_data_spec host bp model with
      ⟨hbk2, hgm⟩ | ⟨e, hgm, hh⟩ | ⟨ed2, ud2, hgm, hh⟩
    · rw [h] at hgm
      injection hgm with h1 h2
      injection h1
    · rw [h] at hgm
      injection hgm with h1 h2
      injection h1
    · rw [h] at hgm
      injection hgm with h1 h2
      injection h1 with h1
      injection h1 with h3 h4
      subst h3
      subst h2
      exact ⟨hh, by simp⟩
  · intro ms an fp tp hmem
    rcases trigger_thumbnail_trace_cases a f host objects model_name fuel with
      htr | ⟨m, tb, hfind, htb, htr | htr | ⟨ms2, tp2, hh, htr⟩⟩
    · rw [htr] at hmem
      cases hmem
    · rw [htr] at hmem
      simp at hmem
    · rw [htr] at hmem
      simp at hmem
    · rw [htr] at hmem
      simp at hmem
      obtain ⟨h1, h2, h3, h4⟩ := hmem
      subst h1
      subst h2
      subst h3
      subst h4
      refine ⟨m, hfind, rfl, hh, ?_⟩
      rw [htr]
      simp
  · intro ud ed us hmem
    rcases hupcases with htr | ⟨m, hfind, htr | ⟨s, htr⟩ | ⟨ud2, ed2, htr2, hh⟩⟩
    · rw [htr] at hmem
      cases hmem
    · rw [htr] at hmem
      simp at hmem
    · rw [htr] at hmem
      simp at hmem
    · rcases htr2 with htr | ⟨s, htr⟩
      · rw [htr] at hmem
        simp at hmem
        obtain ⟨h1, h2, h3⟩ := hmem
        subst h1
        subst h2
        refine ⟨m, hfind, hh, ?_⟩
        rw [htr]
        simp
      · rw [htr] at hmem
        simp at hmem
        obtain ⟨h1, h2, h3⟩ := hmem
        subst h1
        subst h2
        refine ⟨m, hfind, hh, ?_⟩
        rw [htr]
        simp
  · intro c hc
    rcases trigger_thumbnail_trace_cases a f host objects model_name fuel with
      htr | ⟨m, tb, hfind, htb, htr | htr | ⟨ms2, tp2, hh, htr⟩⟩
    · rw [htr] at hc
      cases hc
    · rw [htr] at hc
      rcases List.mem_cons.mp hc with rfl | hc2
      · exact Or.inl ⟨tb, rfl⟩
      · cases hc2
    · rw [htr] at hc
      rcases List.mem_cons.mp hc with rfl | hc2
      · exact Or.inl ⟨tb, rfl⟩
      · rcases List.mem_cons.mp hc2 with rfl | hc3
        · exact Or.inr (Or.inl ⟨m.name, rfl⟩)
        · cases hc3
    · rw [htr] at hc
      rcases List.mem_cons.mp hc with rfl | hc2
      · exact Or.inl ⟨tb, rfl⟩
      · rcases List.mem_cons.mp hc2 with rfl | hc3
        · exact Or.inr (Or.inl ⟨m.name, rfl⟩)
        · rcases List.mem_cons.mp hc3 with rfl | hc4
          · exact Or.inr (Or.inr ⟨ms2, m.name, tb, tp2, rfl⟩)
          · cases hc4
  · intro c hc
    rcases hupcases with htr | ⟨m, hfind, htr | ⟨s, htr⟩ | ⟨ud2, ed2, htr2, hh⟩⟩
    · rw [htr] at hc
      cases hc
    · rw [htr] at hc
      rcases List.mem_cons.mp hc with rfl | hc2
      · exact Or.inl ⟨m.name, rfl⟩
      · cases hc2
    · rw [htr] at hc
      rcases List.mem_cons.mp hc with rfl | hc2
      · exact Or.inl ⟨m.name, rfl⟩
      · rcases List.mem_cons.mp hc2 with rfl | hc3
        · exact Or.inr (Or.inl ⟨s, rfl⟩)
        · cases hc3
    · rcases htr2 with htr | ⟨s, htr⟩
      · rw [htr] at hc
        rcases List.mem_cons.mp hc with rfl | hc2
        · exact Or.inl ⟨m.name, rfl⟩
        · rcases List.mem_cons.mp hc2 with rfl | hc3
          · exact Or.inr (Or.inr ⟨ud2, ed2, _, rfl⟩)
          · cases hc3
      · rw [htr] at hc
        rcases List.mem_cons.mp hc with rfl | hc2
        · exact Or.inl ⟨m.name, rfl⟩
        · rcases List.mem_cons.mp hc2 with rfl | hc3
          · exact Or.inr (Or.inl ⟨s, rfl⟩)
          · rcases List.mem_cons.mp hc3 with rfl | hc4
            · exact Or.inr (Or.inr ⟨ud2, ed2, _, rfl⟩)
            · cases hc4

/-- Concrete instantiation of `host_delegation`: the sample model's
upload data takes its hierarchy from the host's `get_hierarchy`. -/
theorem host_delegation_witness :
    ∃ ed ud tr, get_model_upload_data sampleHost sampleProps sampleModelA =
        (some (ed, ud), tr) ∧
      sampleHost.get_hierarchy sampleModelA.name = Except.ok ed.models ∧
      HostCall.getHierarchy sampleModelA.name ∈ tr := by
  obtain ⟨ed, ud, tr, heq⟩ :
      ∃ ed ud tr, get_model_upload_data sampleHost sampleProps sampleModelA =
        (some (ed, ud), tr) := ⟨_, _, _, rfl⟩
  obtain ⟨h1, h2⟩ := (host_delegation true "m.blend" sampleHost sampleProps
    [sampleModelA] "A" 1 false sampleModelA).1 ed ud tr heq
  exact ⟨ed, ud, tr, heq, h1, h2⟩

/-- Concrete instantiation of `thumbnail_target_is_fresh`: with an empty
filesystem the first candidate `<slug>.jpg` is chosen. -/
theorem thumbnail_target_is_fresh_witness :
    ∃ bk tr, trigger_thumbnail_render true "m.blend" sampleHost [sampleModelA] "A" 1
        = (some bk, tr) ∧
      bk.thumbnail = thumbCandRel (sampleHost.slugify sampleModelA.name) 0 ∧
      sampleHost.fs_exists
        (thumbCandAbs (sampleHost.dirname "m.blend") (sampleHost.slugify sampleModelA.name) 0)
        = false ∧
      ∀ m, m < 0 →
        sampleHost.fs_exists
          (thumbCandAbs (sampleHost.dirname "m.blend") (sampleHost.slugify sampleModelA.name) m)
          = true :=
  thumbnail_target_is_fresh "m.blend" sampleHost [sampleModelA] "A" 1 0 sampleModelA
    rfl rfl rfl (fun m hm => absurd hm (Nat.not_lt_zero m)) (by omega)

end BKBatch
